import Mathlib

/-!
Verification of the stateful graph-execution agent in `src/index.ts`.

The source file wires a two-node agent graph (a reasoning node `llmCall`
and a tool-dispatch node `toolNode`) over a `MessagesState` schema whose
`messages` field merges by appending and whose `llmCalls` field merges by
addition.  The conditional-edge resolver `shouldContinue` routes from the
reasoning node either to the dispatch node or to the terminal marker.

Definitions below are a shallow embedding of that source.  The graph
engine itself (the `StateSchema` merge and the compiled-graph executor)
is provided by the `@langchain/langgraph` library and is not part of the
repository's own sources; those parts are modelled from the spec
(sections 4.1 and 4.6) and are marked as such in their doc comments.
JavaScript numbers are modelled as integers (exact for every value the
claims evaluate; only the unused `divide` handler would differ).
-/

/-- A ToolCall request embedded in an Assistant message:
`{id, name, arguments}`; all three registered tools take two numeric
arguments `{a, b}`, modelled as a pair of integers. -/
structure ToolCall where
  id : String
  name : String
  args : ℤ × ℤ
  deriving DecidableEq, Repr

/-- Serialized output of a tool call: either the numeric value returned
by the handler or the captured error text of a failed handler. -/
inductive ToolOutput where
  | ok (value : ℤ)
  | error (msg : String)
  deriving DecidableEq, Repr

/-- The message variants of the log (`SystemMessage`, `HumanMessage`,
`AIMessage`, `ToolMessage` in the source).  Only the Assistant variant
carries ToolCall requests; a ToolResult carries the id of the ToolCall
it answers. -/
inductive Message where
  | system (text : String)
  | human (text : String)
  | assistant (text : String) (tool_calls : List ToolCall)
  | toolResult (content : ToolOutput) (tool_call_id : String)
  deriving DecidableEq, Repr

/-- `AIMessage.isInstance` from the source guard. -/
def Message.isAssistant : Message → Bool
  | .assistant _ _ => true
  | _ => false

/-- A tool handler body: the function passed to `tool(...)`.  In the
source the three registered handlers are total, but a handler may in
general fail (throw); failure is modelled as `Except.error`. -/
def Handler : Type := ℤ × ℤ → Except String ℤ

/-- `add`: `({a, b}) => a + b` (src/index.ts line 29). -/
def add : Handler := fun p => .ok (p.1 + p.2)

/-- `multiply`: `({a, b}) => a * b` (src/index.ts line 38). -/
def multiply : Handler := fun p => .ok (p.1 * p.2)

/-- `divide`: `({a, b}) => a / b` (src/index.ts line 47). -/
def divide : Handler := fun p => .ok (p.1 / p.2)

/-- A registry mapping tool names to handlers, as looked up by
`toolsByName[toolCall.name]`. -/
def Registry : Type := String → Option Handler

/-- `toolsByName`: the fixed registry `{add, multiply, divide}`
(src/index.ts lines 56-60). -/
def toolsByName : Registry := fun name =>
  if name = "add" then some add
  else if name = "multiply" then some multiply
  else if name = "divide" then some divide
  else none

/-- Modelled from the spec: `t.invoke(toolCall)` — the `tool()` wrapper
from `@langchain/core/tools` (not part of this repository's sources)
runs the handler on the call's arguments and produces one ToolMessage
carrying the same id; a handler failure is captured and encoded as the
content of the ToolResult rather than propagated (spec section 7,
"Tool execution failure"). -/
def toolInvoke (h : Handler) (tc : ToolCall) : Message :=
  match h tc.args with
  | .ok v => .toolResult (.ok v) tc.id
  | .error e => .toolResult (.error e) tc.id

/-- The agent state: an ordered message log and the `llmCalls` counter
(src/index.ts lines 65-70). -/
structure MessagesState where
  messages : List Message
  llmCalls : ℤ
  deriving DecidableEq, Repr

/-- A partial state update returned by a node: each field is optional;
an absent field is left unchanged by the merge. -/
structure Update where
  messages : Option (List Message) := none
  llmCalls : Option ℤ := none
  deriving DecidableEq, Repr

/-- Modelled from the spec: the `StateSchema` merge of
`@langchain/langgraph` (not part of this repository's sources).
`messages` is declared with `MessagesValue` (append policy); `llmCalls`
is declared with `ReducedValue` whose reducer is `(x, y) => x + y`
(src/index.ts lines 65-70); fields absent from the partial update are
left unchanged (spec section 4.1). -/
def merge (s : MessagesState) (u : Update) : MessagesState :=
  { messages :=
      match u.messages with
      | none => s.messages
      | some ms => s.messages ++ ms
    llmCalls :=
      match u.llmCalls with
      | none => s.llmCalls
      | some k => s.llmCalls + k }

/-- The dispatch loop of `toolNode` (src/index.ts lines 92-98): for each
ToolCall in order, look the name up in the registry; if absent, `continue`
(skip, emitting nothing); otherwise invoke the handler and push the
resulting ToolMessage. -/
def dispatchLoop (reg : Registry) : List ToolCall → List Message
  | [] => []
  | tc :: rest =>
    match reg tc.name with
    | none => dispatchLoop reg rest
    | some t => toolInvoke t tc :: dispatchLoop reg rest

/-- `toolNode` parametrised by the registry it closes over
(src/index.ts lines 85-101): if the last message is absent or not an
Assistant message, return `{ messages: [] }`; otherwise dispatch the
Assistant message's tool calls (`tool_calls ?? []`) and return the
collected ToolMessages. -/
def toolNodeWith (reg : Registry) (state : MessagesState) : Update :=
  match state.messages.getLast? with
  | none => { messages := some [] }
  | some lastMessage =>
    match lastMessage with
    | .assistant _ tool_calls => { messages := some (dispatchLoop reg tool_calls) }
    | _ => { messages := some [] }

/-- The source's `toolNode`, closing over the fixed `toolsByName`
registry. -/
def toolNode : MessagesState → Update := toolNodeWith toolsByName

/-- The possible return values of the conditional-edge resolver:
the tool-dispatch node name `"toolNode"` or the terminal marker `END`. -/
inductive Destination where
  | toolNode
  | END
  deriving DecidableEq, Repr

/-- `shouldContinue` (src/index.ts lines 103-120): if the last message
is absent or not an Assistant message, return `END`; if its
`tool_calls` list is non-empty, return `"toolNode"`; otherwise `END`. -/
def shouldContinue (state : MessagesState) : Destination :=
  match state.messages.getLast? with
  | none => .END
  | some lastMessage =>
    match lastMessage with
    | .assistant _ tool_calls =>
      if tool_calls.length ≠ 0 then .toolNode else .END
    | _ => .END

/-- The shape of a response from the model backend: Assistant text plus
zero or more ToolCall requests (spec section 6, model backend boundary). -/
def Backend : Type := List Message → String × List ToolCall

/-- `llmCall` parametrised by the opaque model backend
(src/index.ts lines 72-83): the backend receives the fixed system
instruction followed by the full log, and the node returns the single
Assistant response plus a counter delta of 1. -/
def llmCallWith (backend : Backend) (state : MessagesState) : Update :=
  let response := backend
    (.system "You are a helpful assistant tasked with performing arithmetic on a set of inputs."
      :: state.messages)
  { messages := some [.assistant response.1 response.2]
    llmCalls := some 1 }

/-- The node names of the compiled agent graph
(src/index.ts lines 122-128). -/
inductive NodeName where
  | llmCall
  | toolNode
  deriving DecidableEq, Repr

/-- Modelled from the spec: one iteration of the Executor step loop of
the compiled graph (spec section 4.6; the executor is provided by
`@langchain/langgraph` and is not part of this repository's sources).
The current node runs on the current state, its update is merged, and
the destination is computed from the post-merge state: `llmCall` has the
conditional edge `shouldContinue` with allowed set `{toolNode, END}`
(line 126, `none` standing for the terminal marker), `toolNode` has the
fixed edge back to `llmCall` (line 127). -/
def step (backend : Backend) (s : MessagesState) :
    NodeName → MessagesState × Option NodeName
  | .llmCall =>
    let s2 := merge s (llmCallWith backend s)
    (s2, match shouldContinue s2 with
         | .toolNode => some .toolNode
         | .END => none)
  | .toolNode =>
    let s2 := merge s (toolNode s)
    (s2, some .llmCall)

/-- Modelled from the spec: the Executor loop (spec section 4.6),
iterated from a node with explicit fuel since the source imposes no
iteration bound; alongside the final state it records the sequence of
node names executed.  Returns `none` when the fuel runs out before the
terminal marker is reached. -/
def runTrace (backend : Backend) :
    Nat → MessagesState → NodeName → Option (MessagesState × List NodeName)
  | 0, _, _ => none
  | fuel + 1, s, n =>
    match step backend s n with
    | (s2, none) => some (s2, [n])
    | (s2, some n2) =>
      match runTrace backend fuel s2 n2 with
      | none => none
      | some (sf, tr) => some (sf, n :: tr)

/-- Modelled from the spec: `agent.invoke` — execution starts at the
entry edge `START -> llmCall` (src/index.ts line 125) on a state with
the caller-supplied messages and a zero counter, and runs to the
terminal marker. -/
def invokeAgent (backend : Backend) (fuel : Nat) (init : List Message) :
    Option (MessagesState × List NodeName) :=
  runTrace backend fuel { messages := init, llmCalls := 0 } .llmCall

/-- The scripted backend of the end-to-end scenario: on its first call
(input = system instruction plus the single Human message) it returns an
Assistant message with the single ToolCall `add {a: 3, b: 4}`; on any
later call (longer input) it returns an Assistant message with text "7"
and no ToolCall requests. -/
def demoBackend : Backend := fun input =>
  if input.length ≤ 2 then ("", [⟨"call_1", "add", (3, 4)⟩]) else ("7", [])

/-- Checker for the executed-node pattern `llmCall (toolNode llmCall)*`:
the sequence starts with the reasoning node, the dispatch node is always
followed by the reasoning node, and the reasoning node is the last node
executed. -/
def seqOK : List NodeName → Bool
  | [.llmCall] => true
  | .llmCall :: .toolNode :: rest => seqOK rest
  | _ => false

/-- A handler that always fails, used to exercise handler-failure
containment on a concrete batch. -/
def boomHandler : Handler := fun _ => .error "kaboom"

/-- A registry extending `toolsByName` with the always-failing tool
`"boom"`, used to exercise handler-failure containment. -/
def boomRegistry : Registry := fun name =>
  if name = "boom" then some boomHandler else toolsByName name

/-- The dispatch loop distributes over concatenation of batches. -/
theorem dispatchLoop_append (reg : Registry) (xs ys : List ToolCall) :
    dispatchLoop reg (xs ++ ys) = dispatchLoop reg xs ++ dispatchLoop reg ys := by
  induction xs with
  | nil => rfl
  | cons tc rest ih =>
    simp only [List.cons_append, dispatchLoop]
    cases reg tc.name <;> simp [ih]

/-- When the last message of the log is an Assistant message, `toolNode`
returns exactly the dispatch of its tool calls. -/
theorem toolNodeWith_last_assistant (reg : Registry) (ms : List Message)
    (text : String) (cs : List ToolCall) (c : ℤ) :
    toolNodeWith reg ⟨ms ++ [.assistant text cs], c⟩ =
      { messages := some (dispatchLoop reg cs) } := by
  simp [toolNodeWith, List.getLast?_concat]

/-- Claim C1: the conditional-edge resolver returns the terminal marker
when the last message is absent, is not an Assistant message, or is an
Assistant message with zero ToolCall requests, and returns the
tool-dispatch node name when the last message is an Assistant message
with at least one ToolCall, regardless of the earlier messages. -/
theorem routing_C1 (ms : List Message) (m : Message) (c : ℤ) :
    (∀ text tcs, m = .assistant text tcs → tcs ≠ [] →
      shouldContinue ⟨ms ++ [m], c⟩ = .toolNode)
    ∧ (m.isAssistant = false → shouldContinue ⟨ms ++ [m], c⟩ = .END)
    ∧ (∀ text, m = .assistant text [] → shouldContinue ⟨ms ++ [m], c⟩ = .END)
    ∧ shouldContinue ⟨[], c⟩ = .END := by
  refine ⟨?_, ?_, ?_, rfl⟩
  · rintro text tcs rfl htcs
    cases tcs with
    | nil => exact absurd rfl htcs
    | cons tc rest => simp [shouldContinue, List.getLast?_concat]
  · intro hm
    cases m <;> simp_all [shouldContinue, List.getLast?_concat, Message.isAssistant]
  · rintro text rfl
    simp [shouldContinue, List.getLast?_concat]

/-- Claim C1 witness: concrete instances of the routing policy. -/
theorem routing_C1_witness :
    shouldContinue ⟨[.human "hi", .assistant "" [⟨"1", "add", (3, 4)⟩]], 0⟩ = .toolNode
    ∧ shouldContinue ⟨[.human "hi", .assistant "done" []], 0⟩ = .END
    ∧ shouldContinue ⟨[.assistant "" [⟨"1", "add", (3, 4)⟩], .human "hi"], 0⟩ = .END := by
  refine ⟨?_, ?_, ?_⟩
  · exact (routing_C1 [.human "hi"] (.assistant "" [⟨"1", "add", (3, 4)⟩]) 0).1 "" _ rfl
      (by decide)
  · exact (routing_C1 [.human "hi"] (.assistant "done" []) 0).2.2.1 "done" rfl
  · exact (routing_C1 [.assistant "" [⟨"1", "add", (3, 4)⟩]] (.human "hi") 0).2.1 rfl

/-- Claim C6: the merge is append-only — the merged log is the old log
with the update's messages concatenated after it, so the old log is a
prefix of the new one and the log never shrinks. -/
theorem merge_append_C6 (s : MessagesState) (u : Update) :
    (merge s u).messages = s.messages ++ (u.messages.getD [])
    ∧ s.messages.length ≤ (merge s u).messages.length := by
  cases u with
  | mk ms k => cases ms <;> simp [merge]

/-- Claim C7: the counter merge is additive — an update with counter
delta `k` yields exactly the old counter plus `k`, and an update with no
counter field leaves the counter unchanged. -/
theorem counter_merge_C7 (s : MessagesState) (ms : Option (List Message)) (k : ℤ) :
    (merge s { messages := ms, llmCalls := some k }).llmCalls = s.llmCalls + k
    ∧ (merge s { messages := ms, llmCalls := none }).llmCalls = s.llmCalls :=
  ⟨rfl, rfl⟩

/-- Claim C8: the reasoning node returns exactly one Assistant message
(the backend's response) and a counter delta of exactly 1, so merging
its update grows the log by exactly one message and the counter by one. -/
theorem llm_call_C8 (backend : Backend) (s : MessagesState) :
    ∃ text tcs,
      llmCallWith backend s =
        { messages := some [.assistant text tcs], llmCalls := some 1 }
      ∧ (merge s (llmCallWith backend s)).messages = s.messages ++ [.assistant text tcs]
      ∧ (merge s (llmCallWith backend s)).messages.length = s.messages.length + 1
      ∧ (merge s (llmCallWith backend s)).llmCalls = s.llmCalls + 1 := by
  refine ⟨_, _, rfl, rfl, by simp [merge, llmCallWith], rfl⟩

/-- Claim C9: the dispatch node's update never carries a counter field,
so merging a `toolNode` step leaves the counter unchanged. -/
theorem toolNode_frame_C9 (s : MessagesState) :
    (toolNode s).llmCalls = none ∧ (merge s (toolNode s)).llmCalls = s.llmCalls := by
  have h : (toolNode s).llmCalls = none := by
    unfold toolNode toolNodeWith
    cases s.messages.getLast? with
    | none => rfl
    | some m => cases m <;> rfl
  exact ⟨h, by simp [merge, h]⟩

/-- The dispatch loop on a fully registered batch pairs each result
with its call, in order: the result list and the call list have the
same length and the k-th result is the invocation of the k-th call. -/
theorem dispatchLoop_forall2 (reg : Registry) (cs : List ToolCall)
    (hreg : ∀ tc ∈ cs, (reg tc.name).isSome) :
    List.Forall₂ (fun res tc => ∃ h, reg tc.name = some h ∧ res = toolInvoke h tc)
      (dispatchLoop reg cs) cs := by
  induction cs with
  | nil => exact .nil
  | cons tc rest ih =>
    obtain ⟨h, hh⟩ := Option.isSome_iff_exists.mp (hreg tc (List.mem_cons_self _ _))
    simp only [dispatchLoop, hh]
    exact .cons ⟨h, hh, rfl⟩ (ih fun tc2 h2 => hreg tc2 (List.mem_cons_of_mem _ h2))

/-- Claim C2: on a state whose last message is an Assistant message with
registered ToolCall requests `c1, ..., cn`, the dispatch node returns
the ToolResult messages in exactly that order — one result per call,
the k-th result being the k-th handler's invocation and carrying the id
of the k-th call.  (The invocation order itself is the sequential fold
of `dispatchLoop`: handler k+1 runs only on the tail after result k has
been consed.) -/
theorem dispatch_order_C2 (ms : List Message) (text : String) (cs : List ToolCall)
    (c : ℤ) (hreg : ∀ tc ∈ cs, (toolsByName tc.name).isSome) :
    ∃ results, toolNode ⟨ms ++ [.assistant text cs], c⟩ = { messages := some results }
      ∧ List.Forall₂
          (fun res tc => ∃ h, toolsByName tc.name = some h ∧ res = toolInvoke h tc
            ∧ ∃ out, res = .toolResult out tc.id)
          results cs := by
  refine ⟨dispatchLoop toolsByName cs, toolNodeWith_last_assistant toolsByName ms text cs c, ?_⟩
  refine (dispatchLoop_forall2 toolsByName cs hreg).imp ?_
  rintro res tc ⟨h, hh, rfl⟩
  refine ⟨h, hh, rfl, ?_⟩
  cases hres : h tc.args with
  | ok v => exact ⟨.ok v, by simp [toolInvoke, hres]⟩
  | error e => exact ⟨.error e, by simp [toolInvoke, hres]⟩

/-- Claim C2 witness: a concrete two-call batch is answered in order
with matching ids. -/
theorem dispatch_order_C2_witness :
    (∀ tc ∈ [(⟨"A", "add", (1, 2)⟩ : ToolCall), ⟨"B", "multiply", (2, 3)⟩],
      (toolsByName tc.name).isSome)
    ∧ ∃ results,
        toolNode ⟨[] ++ [.assistant "" [⟨"A", "add", (1, 2)⟩, ⟨"B", "multiply", (2, 3)⟩]], 0⟩ =
          { messages := some results }
        ∧ List.Forall₂
            (fun res tc => ∃ h, toolsByName tc.name = some h ∧ res = toolInvoke h tc
              ∧ ∃ out, res = .toolResult out tc.id)
            results [⟨"A", "add", (1, 2)⟩, ⟨"B", "multiply", (2, 3)⟩] :=
  ⟨by decide, dispatch_order_C2 [] "" [⟨"A", "add", (1, 2)⟩, ⟨"B", "multiply", (2, 3)⟩] 0
    (by decide)⟩

/-- Claim C3: a failing handler yields an error-carrying ToolResult in
its place in the batch; the calls before and after it are still
dispatched and the node returns normally. -/
theorem failure_containment_C3 (reg : Registry) (ms : List Message) (text : String)
    (pre post : List ToolCall) (tc : ToolCall) (h : Handler) (e : String) (c : ℤ)
    (hreg : reg tc.name = some h) (hfail : h tc.args = .error e) :
    toolNodeWith reg ⟨ms ++ [.assistant text (pre ++ tc :: post)], c⟩ =
      { messages := some (dispatchLoop reg pre
          ++ .toolResult (.error e) tc.id :: dispatchLoop reg post) } := by
  rw [toolNodeWith_last_assistant, dispatchLoop_append]
  simp only [dispatchLoop, hreg, toolInvoke, hfail]

/-- Claim C3 witness: in a concrete three-call batch whose middle
handler fails, the failure is encoded as a ToolResult and the third
call still runs. -/
theorem failure_containment_C3_witness :
    boomRegistry "boom" = some boomHandler
    ∧ boomHandler (1, 1) = .error "kaboom"
    ∧ toolNodeWith boomRegistry
        ⟨[] ++ [.assistant "" [⟨"A", "add", (3, 4)⟩, ⟨"B", "boom", (1, 1)⟩,
          ⟨"C", "multiply", (2, 3)⟩]], 0⟩ =
        { messages := some [.toolResult (.ok 7) "A", .toolResult (.error "kaboom") "B",
            .toolResult (.ok 6) "C"] } := by
  refine ⟨rfl, rfl, (failure_containment_C3 boomRegistry [] "" [⟨"A", "add", (3, 4)⟩]
    [⟨"C", "multiply", (2, 3)⟩] ⟨"B", "boom", (1, 1)⟩ boomHandler "kaboom" 0 rfl
    rfl).trans ?_⟩
  decide

/-- The dispatch loop over a batch of only unregistered names emits
nothing. -/
theorem dispatchLoop_all_unknown (reg : Registry) (cs : List ToolCall)
    (h : ∀ tc ∈ cs, reg tc.name = none) : dispatchLoop reg cs = [] := by
  induction cs with
  | nil => rfl
  | cons tc rest ih =>
    simp only [dispatchLoop, h tc (List.mem_cons_self _ _)]
    exact ih fun tc2 h2 => h tc2 (List.mem_cons_of_mem _ h2)

/-- Claim C5: a ToolCall whose name is not registered is silently
skipped — no ToolResult is emitted for it while the calls around it are
still dispatched — and a batch made only of unregistered names yields an
update with zero ToolResult messages. -/
theorem unknown_tool_drop_C5 (ms : List Message) (text : String) (c : ℤ)
    (pre post : List ToolCall) (tc : ToolCall)
    (hnone : toolsByName tc.name = none) :
    toolNode ⟨ms ++ [.assistant text (pre ++ tc :: post)], c⟩ =
      { messages := some (dispatchLoop toolsByName pre ++ dispatchLoop toolsByName post) }
    ∧ ((∀ tc2 ∈ pre ++ tc :: post, toolsByName tc2.name = none) →
        toolNode ⟨ms ++ [.assistant text (pre ++ tc :: post)], c⟩ =
          { messages := some [] }) := by
  constructor
  · show toolNodeWith toolsByName _ = _
    rw [toolNodeWith_last_assistant, dispatchLoop_append]
    simp only [dispatchLoop, hnone]
  · intro hall
    show toolNodeWith toolsByName _ = _
    rw [toolNodeWith_last_assistant, dispatchLoop_all_unknown toolsByName _ hall]

/-- Claim C5 witness: a batch of two unknown tool names produces an
update with zero ToolResult messages. -/
theorem unknown_tool_drop_C5_witness :
    toolsByName "frobnicate" = none
    ∧ toolNode ⟨[] ++ [.assistant "" [⟨"A", "subtract", (1, 2)⟩,
        ⟨"B", "frobnicate", (1, 2)⟩]], 0⟩ = { messages := some [] } := by
  refine ⟨rfl, ?_⟩
  exact (unknown_tool_drop_C5 [] "" 0 [⟨"A", "subtract", (1, 2)⟩] []
    ⟨"B", "frobnicate", (1, 2)⟩ rfl).2 (by intro tc2 h2; fin_cases h2 <;> rfl)

/-- Claim C4: the end-to-end scenario — starting from the single Human
message "Add 3 and 4" with the scripted backend (first an Assistant
message with the one ToolCall `add {a: 3, b: 4}`, then an Assistant
message "7" with no ToolCalls), the compiled graph terminates with a
log of exactly four messages — Human, Assistant with the tool call,
ToolResult 7, Assistant "7" — and a call counter of 2. -/
theorem scenario_C4 :
    invokeAgent demoBackend 10 [.human "Add 3 and 4"] =
      some ({ messages := [.human "Add 3 and 4",
                           .assistant "" [⟨"call_1", "add", (3, 4)⟩],
                           .toolResult (.ok 7) "call_1",
                           .assistant "7" []],
              llmCalls := 2 }, [.llmCall, .toolNode, .llmCall]) := by
  decide

/-- Every terminating run that starts at the reasoning node executes
the node pattern `llmCall (toolNode llmCall)*`: from `llmCall` the only
destinations are `toolNode` and the terminal marker, `toolNode` is
always followed by `llmCall`, and the run can only terminate right
after `llmCall`. -/
theorem runTrace_llm_seqOK (backend : Backend) :
    ∀ fuel s sf tr,
      runTrace backend fuel s .llmCall = some (sf, tr) → seqOK tr = true := by
  intro fuel
  induction fuel using Nat.strong_induction_on with
  | _ fuel ih =>
    intro s sf tr h
    match fuel, h with
    | 0, h => exact absurd h (by simp [runTrace])
    | f + 1, h =>
      cases hd : shouldContinue (merge s (llmCallWith backend s)) with
      | END =>
        simp only [runTrace, step, hd, Option.some.injEq, Prod.mk.injEq] at h
        rw [← h.2]
        rfl
      | toolNode =>
        simp only [runTrace, step, hd] at h
        cases hrun : runTrace backend f (merge s (llmCallWith backend s)) .toolNode with
        | none =>
          rw [hrun] at h
          exact absurd h (by simp)
        | some p =>
          obtain ⟨sf2, tr2⟩ := p
          rw [hrun] at h
          simp only [Option.some.injEq, Prod.mk.injEq] at h
          cases f with
          | zero => exact absurd hrun (by simp [runTrace])
          | succ g =>
            simp only [runTrace, step] at hrun
            cases hrun2 : runTrace backend g
                (merge (merge s (llmCallWith backend s))
                  (toolNode (merge s (llmCallWith backend s)))) .llmCall with
            | none =>
              rw [hrun2] at hrun
              exact absurd hrun (by simp)
            | some q =>
              obtain ⟨sf3, tr3⟩ := q
              rw [hrun2] at hrun
              simp only [Option.some.injEq, Prod.mk.injEq] at hrun
              rw [← h.2, ← hrun.2]
              have hseq3 := ih g (by omega) _ sf3 tr3 hrun2
              simpa [seqOK] using hseq3

/-- Claim C10: wiring invariant of the compiled graph — every
terminating execution starts at the reasoning node (entry edge
`START -> llmCall`), `llmCall` can only be followed by `toolNode` or
termination, and `toolNode` is always followed by `llmCall`; hence the
executed node sequence matches `llmCall (toolNode llmCall)*`, so
`toolNode` never runs twice in a row and is never the last node run. -/
theorem wiring_C10 (backend : Backend) (fuel : Nat) (init : List Message)
    (sf : MessagesState) (tr : List NodeName)
    (h : invokeAgent backend fuel init = some (sf, tr)) : seqOK tr = true :=
  runTrace_llm_seqOK backend fuel _ sf tr h

/-- Claim C10 witness: the demo run terminates with executed node
sequence `llmCall, toolNode, llmCall`, which matches the pattern. -/
theorem wiring_C10_witness :
    invokeAgent demoBackend 10 [.human "Add 3 and 4"] =
      some ({ messages := [.human "Add 3 and 4",
                           .assistant "" [⟨"call_1", "add", (3, 4)⟩],
                           .toolResult (.ok 7) "call_1",
                           .assistant "7" []],
              llmCalls := 2 }, [.llmCall, .toolNode, .llmCall])
    ∧ seqOK [.llmCall, .toolNode, .llmCall] = true := by
  refine ⟨by decide, wiring_C10 demoBackend 10 [.human "Add 3 and 4"]
    { messages := [.human "Add 3 and 4",
                   .assistant "" [⟨"call_1", "add", (3, 4)⟩],
                   .toolResult (.ok 7) "call_1",
                   .assistant "7" []],
      llmCalls := 2 } [.llmCall, .toolNode, .llmCall] (by decide)⟩
